import Mathlib

/-!
Shallow embedding of `src/main.rs` of rusty-space-miner, and proofs about it.

Conventions:
* `u16`/`u32` coordinates and counters are modelled as `Nat`.  All positions the
  game produces are below 34 and all counters stay far below `2^32`, so machine
  overflow is unreachable on the values the claims are about (Rust would panic,
  not wrap, on overflow in any case).
* `f32` fuel is modelled as `ℚ`.  Every fuel value the program produces is a
  multiple of 0.5 in [0, 100]; such values and the operations applied to them
  (`- 0.5` floored at `0.0`, `+ 20.0` capped at `100.0`) are exact in IEEE
  binary32, so the rational model coincides with the f32 computation.
* `HashMap<Resource, u32>` cargo is modelled as a total function
  `Resource → Nat`; `Ship::new` initialises every kind to 0, and
  `entry(k).or_insert(0)` makes the map behave exactly like a total function
  with default 0.
-/

/-- `enum Resource { Iron, Crystal, Gold }` -/
inductive Resource where
  | Iron
  | Crystal
  | Gold
deriving DecidableEq, Repr

/-- `enum Upgrade { Laser, Shields, Thrusters }` (stored on the ship, unused by gameplay). -/
inductive Upgrade where
  | Laser
  | Shields
  | Thrusters
deriving DecidableEq, Repr

/-- `struct Ship { fuel: f32, cargo: HashMap<Resource,u32>, upgrades: Vec<Upgrade>, x: u16, y: u16 }` -/
structure Ship where
  fuel : ℚ
  cargo : Resource → Nat
  upgrades : List Upgrade
  x : Nat
  y : Nat

/-- `Ship::new()`: fuel 100, all cargo counters 0, no upgrades, position (10, 10). -/
def Ship.new : Ship :=
  { fuel := 100
    cargo := fun _ => 0
    upgrades := []
    x := 10
    y := 10 }

/-- `struct Rect { x: u16, y: u16, w: u16, h: u16 }` -/
structure Rect where
  x : Nat
  y : Nat
  w : Nat
  h : Nat

/-- `fn check_collision(ship: &Rect, entity: &Rect) -> bool` — axis-aligned rectangle overlap. -/
def check_collision (ship entity : Rect) : Bool :=
  decide (ship.x < entity.x + entity.w) &&
  decide (ship.x + ship.w > entity.x) &&
  decide (ship.y < entity.y + entity.h) &&
  decide (ship.y + ship.h > entity.y)

/-- `enum InputEvent { Up, Down, Left, Right, Mine, Quit, None }` -/
inductive InputEvent where
  | Up
  | Down
  | Left
  | Right
  | Mine
  | Quit
  | None
deriving DecidableEq, Repr

/-- `struct Asteroid { x: u16, y: u16 }` -/
structure Asteroid where
  x : Nat
  y : Nat

/-- `struct ResourceNode { x: u16, y: u16, kind: Resource }` -/
structure ResourceNode where
  x : Nat
  y : Nat
  kind : Resource

/-- `fn physics_system(input: &InputEvent, ship: &mut Ship)`:
clamped one-cell movement (`Up` only when `y > 0`, `Down` only when `y < 14`,
`Left` only when `x > 0`, `Right` only when `x < 31`), then
`ship.fuel = (ship.fuel - 0.5).max(0.0)`. -/
def physics_system (input : InputEvent) (ship : Ship) : Ship :=
  let moved :=
    match input with
    | InputEvent.Up => if ship.y > 0 then { ship with y := ship.y - 1 } else ship
    | InputEvent.Down => if ship.y < 14 then { ship with y := ship.y + 1 } else ship
    | InputEvent.Left => if ship.x > 0 then { ship with x := ship.x - 1 } else ship
    | InputEvent.Right => if ship.x < 31 then { ship with x := ship.x + 1 } else ship
    | _ => ship
  { moved with fuel := max (moved.fuel - 1/2) 0 }

/-- Folding a whole sequence of intents through `physics_system`
(the movement part of running that many frames). -/
def run_physics (inputs : List InputEvent) (ship : Ship) : Ship :=
  inputs.foldl (fun s i => physics_system i s) ship

theorem physics_system_x_lt (input : InputEvent) (ship : Ship) (hx : ship.x < 32) :
    (physics_system input ship).x < 32 := by
  cases input <;> simp only [physics_system] <;> (try split) <;> (try simp) <;> omega

theorem physics_system_y_lt (input : InputEvent) (ship : Ship) (hy : ship.y < 15) :
    (physics_system input ship).y < 15 := by
  cases input <;> simp only [physics_system] <;> (try split) <;> (try simp) <;> omega

theorem run_physics_bounds (inputs : List InputEvent) (ship : Ship)
    (hx : ship.x < 32) (hy : ship.y < 15) :
    (run_physics inputs ship).x < 32 ∧ (run_physics inputs ship).y < 15 := by
  induction inputs generalizing ship with
  | nil => exact ⟨hx, hy⟩
  | cons i rest ih =>
      exact ih (physics_system i ship)
        (physics_system_x_lt i ship hx) (physics_system_y_lt i ship hy)

/-- C1: for every sequence of intents fed through `physics_system`, a ship starting
in bounds stays in `[0, 32) × [0, 15)` (lower bounds are inherent to `Nat`
coordinates, mirroring `u16`), and each directional intent at its edge is a
no-op: the position is left exactly where it was, not wrapped. -/
theorem movement_stays_in_bounds (inputs : List InputEvent) (ship : Ship)
    (hx : ship.x < 32) (hy : ship.y < 15) :
    ((run_physics inputs ship).x < 32 ∧ (run_physics inputs ship).y < 15) ∧
    (∀ s : Ship, s.y = 0 →
      (physics_system InputEvent.Up s).y = s.y ∧ (physics_system InputEvent.Up s).x = s.x) ∧
    (∀ s : Ship, s.y = 14 →
      (physics_system InputEvent.Down s).y = s.y ∧ (physics_system InputEvent.Down s).x = s.x) ∧
    (∀ s : Ship, s.x = 0 →
      (physics_system InputEvent.Left s).x = s.x ∧ (physics_system InputEvent.Left s).y = s.y) ∧
    (∀ s : Ship, s.x = 31 →
      (physics_system InputEvent.Right s).x = s.x ∧ (physics_system InputEvent.Right s).y = s.y) := by
  refine ⟨run_physics_bounds inputs ship hx hy, ?_, ?_, ?_, ?_⟩ <;>
    intro s h <;> simp [physics_system, h]

/-- Witness for C1 at a concrete in-bounds starting ship and intent sequence. -/
theorem movement_stays_in_bounds_witness :
    (run_physics [InputEvent.Right, InputEvent.Right, InputEvent.Up] Ship.new).x < 32 ∧
    (run_physics [InputEvent.Right, InputEvent.Right, InputEvent.Up] Ship.new).y < 15 :=
  (movement_stays_in_bounds [InputEvent.Right, InputEvent.Right, InputEvent.Up] Ship.new
    (by decide) (by decide)).1

/-- `fn collision_system(ship: &Ship, asteroids: &[Asteroid]) -> bool`:
`asteroids.iter().any(|a| a.x == ship.x && a.y == ship.y)`. -/
def collision_system (ship : Ship) (asteroids : List Asteroid) : Bool :=
  asteroids.any fun a => a.x == ship.x && a.y == ship.y

/-- The predicate of `resources.iter().position(|r| r.x == ship.x && r.y == ship.y)`. -/
def cellMatch (sx sy : Nat) (r : ResourceNode) : Bool :=
  r.x == sx && r.y == sy

/-- The combination `Vec::position` + `Vec::remove` used by `mining_system`:
find the first node at cell `(sx, sy)` and take it out of the list, returning
the node and the remaining list (`none` when no node is at that cell). -/
def mineAt (sx sy : Nat) : List ResourceNode → Option (ResourceNode × List ResourceNode)
  | [] => none
  | r :: rs =>
    if cellMatch sx sy r then some (r, rs)
    else
      match mineAt sx sy rs with
      | some (found, rest) => some (found, r :: rest)
      | none => none

/-- `*ship.cargo.entry(res.kind).or_insert(0) += 1` on the total-function cargo model. -/
def creditCargo (ship : Ship) (k : Resource) : Ship :=
  { ship with cargo := fun k2 => if k2 = k then ship.cargo k2 + 1 else ship.cargo k2 }

/-- `fn mining_system(input: &InputEvent, ship: &mut Ship, resources: &mut Vec<ResourceNode>)
-> Option<Resource>`: on a `Mine` intent, remove the first resource node at the
ship's cell, credit one unit of its kind to cargo, refuel `(fuel + 20).min(100)`
when the kind is `Crystal`, and return the kind; otherwise change nothing and
return `none`.  Result is `(returned value, ship after, resources after)`. -/
def mining_system (input : InputEvent) (ship : Ship) (resources : List ResourceNode) :
    Option Resource × Ship × List ResourceNode :=
  match input with
  | InputEvent.Mine =>
    match mineAt ship.x ship.y resources with
    | some (res, rest) =>
      let ship1 := creditCargo ship res.kind
      let ship2 :=
        if res.kind = Resource.Crystal then { ship1 with fuel := min (ship1.fuel + 20) 100 }
        else ship1
      (some res.kind, ship2, rest)
    | none => (none, ship, resources)
  | _ => (none, ship, resources)

theorem mining_system_fuel_cases (input : InputEvent) (ship : Ship)
    (resources : List ResourceNode) :
    (mining_system input ship resources).2.1.fuel = ship.fuel ∨
    (mining_system input ship resources).2.1.fuel = min (ship.fuel + 20) 100 := by
  cases input <;> simp only [mining_system]
  case Mine =>
    cases h : mineAt ship.x ship.y resources with
    | none => simp [h]
    | some p =>
        by_cases hk : p.1.kind = Resource.Crystal <;> simp [h, hk, creditCargo]
  all_goals exact Or.inl trivial

theorem physics_system_fuel (input : InputEvent) (ship : Ship) :
    (physics_system input ship).fuel = max (ship.fuel - 1/2) 0 := by
  cases input <;> simp only [physics_system] <;> (try split) <;> rfl

/-- C2: fuel stays in `[0, 100]`.  Starting from a fuel level in `[0, 100]`
(as `Ship::new`'s 100 is), one application of `physics_system` (decay floored
at 0) or of `mining_system` (crystal refuel capped at 100) leaves fuel in
`[0, 100]`; hence every reachable state satisfies the invariant. -/
theorem fuel_in_range (input : InputEvent) (ship : Ship) (resources : List ResourceNode)
    (h0 : 0 ≤ ship.fuel) (h100 : ship.fuel ≤ 100) :
    (0 ≤ (physics_system input ship).fuel ∧ (physics_system input ship).fuel ≤ 100) ∧
    (0 ≤ (mining_system input ship resources).2.1.fuel ∧
      (mining_system input ship resources).2.1.fuel ≤ 100) ∧
    Ship.new.fuel = 100 := by
  refine ⟨?_, ?_, rfl⟩
  · rw [physics_system_fuel]
    constructor
    · exact le_max_right _ _
    · exact max_le (by linarith) (by norm_num)
  · rcases mining_system_fuel_cases input ship resources with h | h <;> rw [h]
    · exact ⟨h0, h100⟩
    · constructor
      · exact le_min (by linarith) (by norm_num)
      · exact min_le_right _ _

/-- The initial asteroid field of `main`. -/
def initialAsteroids : List Asteroid :=
  [⟨5, 5⟩, ⟨20, 8⟩, ⟨15, 12⟩]

/-- The initial resource field of `main`. -/
def initialResources : List ResourceNode :=
  [⟨8, 3, Resource.Iron⟩, ⟨25, 10, Resource.Crystal⟩, ⟨12, 7, Resource.Gold⟩]

theorem mineAt_eq_of_first (sx sy : Nat) (pre : List ResourceNode) (r : ResourceNode)
    (post : List ResourceNode) (hpre : ∀ p ∈ pre, cellMatch sx sy p = false)
    (hr : cellMatch sx sy r = true) :
    mineAt sx sy (pre ++ r :: post) = some (r, pre ++ post) := by
  induction pre with
  | nil => simp [mineAt, hr]
  | cons p ps ih =>
      have hp : cellMatch sx sy p = false := hpre p (by simp)
      have ihe := ih fun q hq => hpre q (by simp [hq])
      simp [mineAt, hp, ihe]

theorem mineAt_eq_none_iff (sx sy : Nat) (rs : List ResourceNode) :
    mineAt sx sy rs = none ↔ ∀ r ∈ rs, cellMatch sx sy r = false := by
  induction rs with
  | nil => simp [mineAt]
  | cons p ps ih =>
      by_cases hp : cellMatch sx sy p = true
      · simp [mineAt, hp]
      · cases h : mineAt sx sy ps with
        | none =>
            have hall : ∀ r ∈ ps, cellMatch sx sy r = false := ih.mp h
            simp only [Bool.not_eq_true] at hp
            simp [mineAt, hp, h]
            exact hall
        | some pr =>
            have hps : ¬ ∀ r ∈ ps, cellMatch sx sy r = false := by
              rw [← ih, h]; simp
            simp only [Bool.not_eq_true] at hp
            simp [mineAt, hp, h, hps]

theorem mineAt_some_split (sx sy : Nat) :
    ∀ (rs : List ResourceNode) (r : ResourceNode) (rest : List ResourceNode),
    mineAt sx sy rs = some (r, rest) →
    cellMatch sx sy r = true ∧
    ∃ pre post, rs = pre ++ r :: post ∧ rest = pre ++ post ∧
      ∀ p ∈ pre, cellMatch sx sy p = false := by
  intro rs
  induction rs with
  | nil => intro r rest h; simp [mineAt] at h
  | cons p ps ih =>
      intro r rest h
      by_cases hp : cellMatch sx sy p = true
      · simp only [mineAt, hp, if_pos] at h
        have hpr : p = r ∧ ps = rest := by simpa using h
        obtain ⟨rfl, rfl⟩ := hpr
        exact ⟨hp, [], ps, by simp, by simp, by simp⟩
      · have hpb : cellMatch sx sy p = false := by
          simpa using hp
        simp only [mineAt, hpb, Bool.false_eq_true, if_false] at h
        cases hm : mineAt sx sy ps with
        | none => rw [hm] at h; simp at h
        | some pr =>
            rw [hm] at h
            have hpr : pr.1 = r ∧ p :: pr.2 = rest := by
              cases pr; simpa using h
            obtain ⟨hr1, hr2⟩ := hpr
            obtain ⟨hmatch, pre, post, hps, hrest, hpre⟩ :=
              ih pr.1 pr.2 (by rw [hm])
            subst hr1
            refine ⟨hmatch, p :: pre, post, by simp [hps], ?_, ?_⟩
            · rw [← hr2, hrest]; simp
            · intro q hq
              rcases List.mem_cons.mp hq with hq | hq
              · subst hq; exact hpb
              · exact hpre q hq

theorem mineAt_countP (sx sy : Nat) (rs : List ResourceNode) (r : ResourceNode)
    (rest : List ResourceNode) (h : mineAt sx sy rs = some (r, rest)) :
    rest.countP (cellMatch sx sy) + 1 = rs.countP (cellMatch sx sy) := by
  obtain ⟨hmatch, pre, post, hrs, hrest, _⟩ := mineAt_some_split sx sy rs r rest h
  subst hrs hrest
  simp [List.countP_append, List.countP_cons, hmatch]
  omega

theorem mineAt_sublist (sx sy : Nat) (rs : List ResourceNode) (r : ResourceNode)
    (rest : List ResourceNode) (h : mineAt sx sy rs = some (r, rest)) :
    rest.Sublist rs := by
  obtain ⟨_, pre, post, hrs, hrest, _⟩ := mineAt_some_split sx sy rs r rest h
  subst hrs hrest
  exact (List.sublist_cons_self r post).append_left pre

/-- Characterisation of a successful `Mine`: the removed node, the untouched
position, the single cargo increment, and the crystal-only refuel. -/
theorem mining_system_mine_some (ship : Ship) (rs : List ResourceNode) (k : Resource)
    (ship' : Ship) (rs' : List ResourceNode)
    (h : mining_system InputEvent.Mine ship rs = (some k, ship', rs')) :
    ∃ r, mineAt ship.x ship.y rs = some (r, rs') ∧ r.kind = k ∧
      ship'.x = ship.x ∧ ship'.y = ship.y ∧ ship'.upgrades = ship.upgrades ∧
      ship'.cargo k = ship.cargo k + 1 ∧ (∀ k2, k2 ≠ k → ship'.cargo k2 = ship.cargo k2) ∧
      ship'.fuel = (if k = Resource.Crystal then min (ship.fuel + 20) 100 else ship.fuel) := by
  simp only [mining_system] at h
  cases hm : mineAt ship.x ship.y rs with
  | none => rw [hm] at h; simp at h
  | some pr =>
      obtain ⟨r, rest⟩ := pr
      rw [hm] at h
      obtain ⟨hk, hship, hrs⟩ : r.kind = k ∧ _ = ship' ∧ rest = rs' := by
        simpa [Prod.ext_iff] using h
      subst hk
      subst hrs
      refine ⟨r, rfl, rfl, ?_⟩
      subst hship
      by_cases hc : r.kind = Resource.Crystal
      · refine ⟨by simp [hc, creditCargo], by simp [hc, creditCargo],
          by simp [hc, creditCargo], by simp [hc, creditCargo], ?_, by simp [hc, creditCargo]⟩
        intro k2 hk2
        have hk2' : k2 ≠ Resource.Crystal := by rw [← hc]; exact hk2
        simp [hc, creditCargo, hk2, hk2']
      · refine ⟨by simp [hc, creditCargo], by simp [hc, creditCargo],
          by simp [hc, creditCargo], by simp [hc, creditCargo], ?_, by simp [hc, creditCargo]⟩
        intro k2 hk2
        simp [hc, creditCargo, hk2]

/-- Witness for C2 at a concrete state: the freshly created ship, a `Mine`
intent, and one resource node under the ship. -/
theorem fuel_in_range_witness :
    (0 ≤ (physics_system InputEvent.Mine Ship.new).fuel ∧
      (physics_system InputEvent.Mine Ship.new).fuel ≤ 100) ∧
    (0 ≤ (mining_system InputEvent.Mine Ship.new [⟨10, 10, Resource.Crystal⟩]).2.1.fuel ∧
      (mining_system InputEvent.Mine Ship.new [⟨10, 10, Resource.Crystal⟩]).2.1.fuel ≤ 100) ∧
    Ship.new.fuel = 100 :=
  fuel_in_range InputEvent.Mine Ship.new [⟨10, 10, Resource.Crystal⟩]
    (by norm_num [Ship.new]) (by norm_num [Ship.new])

/-- C3: full functional contract of `mining_system`.  On `Mine` with the first
matching node `r` (everything before it misses the ship's cell), `r` is removed,
cargo of `r.kind` gains exactly 1 (other kinds untouched), fuel becomes
`(fuel + 20).min(100)` exactly when the kind is Crystal, position and upgrades
are untouched, and `some r.kind` is returned.  On a non-`Mine` intent, or when
no node is at the ship's cell, the result is `none` with ship and resources
unchanged. -/
theorem mining_system_contract (ship : Ship) (rs : List ResourceNode) :
    (∀ pre r post, rs = pre ++ r :: post →
      cellMatch ship.x ship.y r = true →
      (∀ p ∈ pre, cellMatch ship.x ship.y p = false) →
      ∃ ship2, mining_system InputEvent.Mine ship rs = (some r.kind, ship2, pre ++ post) ∧
        ship2.cargo r.kind = ship.cargo r.kind + 1 ∧
        (∀ k, k ≠ r.kind → ship2.cargo k = ship.cargo k) ∧
        ship2.fuel =
          (if r.kind = Resource.Crystal then min (ship.fuel + 20) 100 else ship.fuel) ∧
        ship2.x = ship.x ∧ ship2.y = ship.y ∧ ship2.upgrades = ship.upgrades) ∧
    ((∀ r ∈ rs, cellMatch ship.x ship.y r = false) →
      mining_system InputEvent.Mine ship rs = (none, ship, rs)) ∧
    (∀ input, input ≠ InputEvent.Mine →
      mining_system input ship rs = (none, ship, rs)) := by
  refine ⟨?_, ?_, ?_⟩
  · intro pre r post hsplit hr hpre
    subst hsplit
    have hm := mineAt_eq_of_first ship.x ship.y pre r post hpre hr
    obtain ⟨r2, hm2, hkind, hx, hy, hu, hc1, hc2, hf⟩ :=
      mining_system_mine_some ship (pre ++ r :: post) r.kind
        (mining_system InputEvent.Mine ship (pre ++ r :: post)).2.1
        (mining_system InputEvent.Mine ship (pre ++ r :: post)).2.2
        (by simp only [mining_system, hm])
    refine ⟨(mining_system InputEvent.Mine ship (pre ++ r :: post)).2.1, ?_, hc1, hc2, hf, hx, hy, hu⟩
    simp only [mining_system, hm]
  · intro hnone
    have hm : mineAt ship.x ship.y rs = none := (mineAt_eq_none_iff ship.x ship.y rs).mpr hnone
    simp [mining_system, hm]
  · intro input hinput
    cases input <;> first | rfl | exact absurd rfl hinput

/-- Concrete ship used by the C3 witness. -/
def shipW3 : Ship :=
  { fuel := 100, cargo := fun _ => 0, upgrades := [], x := 12, y := 10 }

/-- Concrete resource list used by the C3 witness: one miss before the hit. -/
def rsW3 : List ResourceNode :=
  [⟨3, 4, Resource.Iron⟩, ⟨12, 10, Resource.Gold⟩]

/-- Witness for C3: mining the gold node at the ship's cell, behind one
non-matching node. -/
theorem mining_system_contract_witness :
    (mining_system InputEvent.Mine shipW3 rsW3).1 = some Resource.Gold ∧
    (mining_system InputEvent.Mine shipW3 rsW3).2.2 = [⟨3, 4, Resource.Iron⟩] ∧
    (mining_system InputEvent.Mine shipW3 rsW3).2.1.cargo Resource.Gold = 1 := by
  obtain ⟨ship2, heq, hcargo, -⟩ :=
    (mining_system_contract shipW3 rsW3).1 [⟨3, 4, Resource.Iron⟩] ⟨12, 10, Resource.Gold⟩ []
      rfl (by decide) (by decide)
  rw [heq]
  refine ⟨rfl, rfl, ?_⟩
  simpa [shipW3] using hcargo

/-- Ship with fuel 90 on the crystal cell: the C4 counterexample state.
Fuel 90 is reachable, e.g. 15 `Right` frames to (25, 10) and 5 wait frames
deplete 100 to 90 just before the crystal at (25, 10) is mined. -/
def shipC4 : Ship :=
  { fuel := 90, cargo := fun _ => 0, upgrades := [], x := 25, y := 10 }

/-- Counterexample to C4 as stated: mining a crystal at fuel 90 yields fuel 100,
an increase of 10, not 20 — yet fuel was not at the 100 cap beforehand. -/
theorem crystal_refuel_counterexample :
    (mining_system InputEvent.Mine shipC4 [⟨25, 10, Resource.Crystal⟩]).1 =
      some Resource.Crystal ∧
    shipC4.fuel ≠ 100 ∧
    (mining_system InputEvent.Mine shipC4 [⟨25, 10, Resource.Crystal⟩]).2.1.fuel = 100 ∧
    (mining_system InputEvent.Mine shipC4 [⟨25, 10, Resource.Crystal⟩]).2.1.fuel ≠
      shipC4.fuel + 20 := by
  refine ⟨rfl, by norm_num [shipC4], ?_, ?_⟩ <;>
    norm_num [mining_system, mineAt, cellMatch, creditCargo, shipC4]

/-- C4 amended: a successful crystal mine sets fuel to `(fuel + 20).min(100)`:
a strict increase whenever fuel was below 100, by exactly 20 whenever fuel was
at most 80, and no change when fuel was already at the 100 cap. -/
theorem crystal_refuel_amended (ship : Ship) (rs : List ResourceNode)
    (ship' : Ship) (rs' : List ResourceNode)
    (h : mining_system InputEvent.Mine ship rs = (some Resource.Crystal, ship', rs')) :
    ship'.fuel = min (ship.fuel + 20) 100 ∧
    (ship.fuel < 100 → ship.fuel < ship'.fuel) ∧
    (ship.fuel ≤ 80 → ship'.fuel = ship.fuel + 20) ∧
    (ship.fuel = 100 → ship'.fuel = 100) := by
  obtain ⟨r, -, -, -, -, -, -, -, hf⟩ :=
    mining_system_mine_some ship rs Resource.Crystal ship' rs' h
  rw [if_pos rfl] at hf
  refine ⟨hf, ?_, ?_, ?_⟩
  · intro h100
    rw [hf]
    exact lt_min (by linarith) h100
  · intro h80
    rw [hf]
    exact min_eq_left (by linarith)
  · intro h100
    rw [hf, h100]
    norm_num

/-- Ship with fuel 50 on the crystal cell, for the C4 witness. -/
def shipW4 : Ship :=
  { fuel := 50, cargo := fun _ => 0, upgrades := [], x := 25, y := 10 }

/-- Witness for the amended C4 at fuel 50: refuelled to exactly `50 + 20`. -/
theorem crystal_refuel_amended_witness :
    (mining_system InputEvent.Mine shipW4 [⟨25, 10, Resource.Crystal⟩]).2.1.fuel =
      shipW4.fuel + 20 :=
  (crystal_refuel_amended shipW4 [⟨25, 10, Resource.Crystal⟩]
      (mining_system InputEvent.Mine shipW4 [⟨25, 10, Resource.Crystal⟩]).2.1
      (mining_system InputEvent.Mine shipW4 [⟨25, 10, Resource.Crystal⟩]).2.2
      rfl).2.2.1 (by norm_num [shipW4])

/-- Ship sitting at (5, 5), for the C5 counterexample. -/
def shipC5 : Ship :=
  { fuel := 100, cargo := fun _ => 0, upgrades := [], x := 5, y := 5 }

/-- Resource list with two nodes stacked on cell (5, 5), for the C5
counterexample. -/
def rsC5 : List ResourceNode :=
  [⟨5, 5, Resource.Iron⟩, ⟨5, 5, Resource.Iron⟩]

/-- Counterexample to C5 as stated over arbitrary states: with two nodes
stacked on the ship's cell, the first `Mine` succeeds and the second `Mine`
succeeds again instead of yielding nothing. -/
theorem mining_idempotent_counterexample :
    (mining_system InputEvent.Mine shipC5 rsC5).1 = some Resource.Iron ∧
    (mining_system InputEvent.Mine
        (mining_system InputEvent.Mine shipC5 rsC5).2.1
        (mining_system InputEvent.Mine shipC5 rsC5).2.2).1 = some Resource.Iron := by
  constructor <;> rfl

/-- C5 amended: in any state whose resource collection has at most one node on
the ship's cell — which covers every reachable state, since the initial
collection has pairwise-distinct positions, nodes are only ever removed, and a
mine strictly decreases the number of nodes on the mined cell — a second `Mine`
right after a successful one yields nothing mined and changes nothing; and each
single successful mine raises the mined kind's cargo count by exactly 1, never
more, leaving other counts unchanged. -/
theorem mining_idempotent_amended :
    (∀ (ship : Ship) (rs : List ResourceNode) (k : Resource) (ship' : Ship)
        (rs' : List ResourceNode),
      rs.countP (cellMatch ship.x ship.y) ≤ 1 →
      mining_system InputEvent.Mine ship rs = (some k, ship', rs') →
      mining_system InputEvent.Mine ship' rs' = (none, ship', rs')) ∧
    (∀ (ship : Ship) (rs : List ResourceNode) (k : Resource) (ship' : Ship)
        (rs' : List ResourceNode),
      mining_system InputEvent.Mine ship rs = (some k, ship', rs') →
      ship'.cargo k = ship.cargo k + 1 ∧ ∀ k2, k2 ≠ k → ship'.cargo k2 = ship.cargo k2) ∧
    List.Pairwise (fun a b : ResourceNode => a.x ≠ b.x ∨ a.y ≠ b.y) initialResources ∧
    (∀ (ship : Ship) (rs : List ResourceNode) (k : Resource) (ship' : Ship)
        (rs' : List ResourceNode) (cx cy : Nat),
      mining_system InputEvent.Mine ship rs = (some k, ship', rs') →
      rs'.countP (cellMatch cx cy) ≤ rs.countP (cellMatch cx cy) ∧
      rs'.countP (cellMatch ship.x ship.y) + 1 = rs.countP (cellMatch ship.x ship.y)) := by
  refine ⟨?_, ?_, by decide, ?_⟩
  · intro ship rs k ship' rs' hcount h
    obtain ⟨r, hm, -, hx, hy, -, -, -, -⟩ := mining_system_mine_some ship rs k ship' rs' h
    have hzero : rs'.countP (cellMatch ship.x ship.y) = 0 := by
      have := mineAt_countP ship.x ship.y rs r rs' hm
      omega
    have hnone : ∀ q ∈ rs', cellMatch ship'.x ship'.y q = false := by
      rw [hx, hy]
      intro q hq
      by_contra hmatch
      have : 0 < rs'.countP (cellMatch ship.x ship.y) :=
        List.countP_pos_iff.mpr ⟨q, hq, by simpa using hmatch⟩
      omega
    have hm' : mineAt ship'.x ship'.y rs' = none :=
      (mineAt_eq_none_iff ship'.x ship'.y rs').mpr hnone
    simp [mining_system, hm']
  · intro ship rs k ship' rs' h
    obtain ⟨r, -, -, -, -, -, hc1, hc2, -⟩ := mining_system_mine_some ship rs k ship' rs' h
    exact ⟨hc1, hc2⟩
  · intro ship rs k ship' rs' cx cy h
    obtain ⟨r, hm, -, -, -, -, -, -, -⟩ := mining_system_mine_some ship rs k ship' rs' h
    constructor
    · exact (mineAt_sublist ship.x ship.y rs r rs' hm).countP_le _
    · exact mineAt_countP ship.x ship.y rs r rs' hm

/-- Ship sitting at (7, 7), for the C5 witness. -/
def shipW5 : Ship :=
  { fuel := 100, cargo := fun _ => 0, upgrades := [], x := 7, y := 7 }

/-- Witness for the amended C5: after the single node at the ship's cell is
mined, a second `Mine` is a no-op returning nothing. -/
theorem mining_idempotent_amended_witness :
    mining_system InputEvent.Mine
        (mining_system InputEvent.Mine shipW5 [⟨7, 7, Resource.Gold⟩]).2.1
        (mining_system InputEvent.Mine shipW5 [⟨7, 7, Resource.Gold⟩]).2.2 =
      (none, (mining_system InputEvent.Mine shipW5 [⟨7, 7, Resource.Gold⟩]).2.1,
        (mining_system InputEvent.Mine shipW5 [⟨7, 7, Resource.Gold⟩]).2.2) :=
  mining_idempotent_amended.1 shipW5 [⟨7, 7, Resource.Gold⟩] Resource.Gold
    (mining_system InputEvent.Mine shipW5 [⟨7, 7, Resource.Gold⟩]).2.1
    (mining_system InputEvent.Mine shipW5 [⟨7, 7, Resource.Gold⟩]).2.2
    (by decide) rfl

/-- `if tick % 500 == 0 && spawn_rate > 10 { spawn_rate -= 5 }` — the per-frame
difficulty ramp of `main`'s loop. -/
def difficulty_step (tick rate : Nat) : Nat :=
  if tick % 500 = 0 ∧ rate > 10 then rate - 5 else rate

/-- The spawn rate after `n` frames of the loop: `main` starts it at 50 and
applies `difficulty_step` once per frame, at ticks 1, 2, 3, ... -/
def spawnRateAt : Nat → Nat
  | 0 => 50
  | n + 1 => difficulty_step (n + 1) (spawnRateAt n)

theorem spawnRateAt_closed (n : Nat) : spawnRateAt n = max (50 - 5 * (n / 500)) 10 := by
  induction n with
  | zero => rfl
  | succ n ih =>
      have hdiv : (n + 1) / 500 = n / 500 + if 500 ∣ n + 1 then 1 else 0 :=
        Nat.succ_div n 500
      have hdvd : 500 ∣ n + 1 ↔ (n + 1) % 500 = 0 :=
        Nat.dvd_iff_mod_eq_zero
      rw [spawnRateAt, difficulty_step, ih]
      by_cases hmod : (n + 1) % 500 = 0
      · have : 500 ∣ n + 1 := hdvd.mpr hmod
        rw [if_pos this] at hdiv
        by_cases hbig : max (50 - 5 * (n / 500)) 10 > 10
        · rw [if_pos ⟨hmod, hbig⟩]
          omega
        · rw [if_neg fun hand => hbig hand.2]
          omega
      · have : ¬ 500 ∣ n + 1 := fun hd => hmod (hdvd.mp hd)
        rw [if_neg this] at hdiv
        rw [if_neg fun hand => hmod hand.1]
        omega

theorem spawnRateAt_le_pred (n : Nat) : spawnRateAt (n + 1) ≤ spawnRateAt n := by
  rw [spawnRateAt, difficulty_step]
  split <;> omega

/-- The mutable state owned by `main`'s loop: ship, asteroids, resources,
score, tick and spawn_rate. -/
structure GameState where
  ship : Ship
  asteroids : List Asteroid
  resources : List ResourceNode
  score : Nat
  tick : Nat
  spawn_rate : Nat

/-- An observable output of the loop: a full-frame `render` call, or the
`Game Over! Final Score: {}` message. -/
inductive GameEvent where
  | render (s : GameState)
  | gameOverMsg (score : Nat)

def isRender : GameEvent → Bool
  | GameEvent.render _ => true
  | GameEvent.gameOverMsg _ => false

/-- How a run of the loop ended: `quit` from the `Quit` intent's `break`,
`lost` from the collision/fuel-out `break`, `starved` when the modelled input
sequence ran out (the real loop would block in `read_input`). -/
inductive ExitKind where
  | quit
  | lost
  | starved
deriving DecidableEq

structure RunResult where
  final : GameState
  exit : ExitKind
  consumed : Nat
  trace : List GameEvent

/-- The frame body between the quit-check and the game-over check:
`physics_system`, `tick += 1`, asteroid spawn when `tick % spawn_rate == 0`
(the new asteroid supplied by the `rng` oracle), and the difficulty ramp. -/
def frameAdvance (rng : Nat → Asteroid) (input : InputEvent) (s : GameState) : GameState :=
  let ship1 := physics_system input s.ship
  let tick1 := s.tick + 1
  let asteroids1 :=
    if tick1 % s.spawn_rate = 0 then s.asteroids ++ [rng tick1] else s.asteroids
  { ship := ship1, asteroids := asteroids1, resources := s.resources, score := s.score,
    tick := tick1, spawn_rate := difficulty_step tick1 s.spawn_rate }

/-- `collision_system(&ship, &asteroids) || ship.fuel <= 0.0` — the loss test. -/
def frameLost (s : GameState) : Bool :=
  collision_system s.ship s.asteroids || decide (s.ship.fuel ≤ 0)

/-- `mining_system` plus the orchestrator's `score += 10` on a successful mine. -/
def frameMine (input : InputEvent) (s : GameState) : GameState :=
  let m := mining_system input s.ship s.resources
  { s with
    ship := m.2.1
    resources := m.2.2
    score := if m.1.isSome then s.score + 10 else s.score }

/-- The game loop of `main`, run over a list of input intents (one per frame,
as produced by `read_input`): render, quit-check (silent `break`), physics,
tick/spawn/difficulty, loss-check (one more render plus the Game Over message,
then `break`), mining and scoring, repeat. -/
def runLoop (rng : Nat → Asteroid) : List InputEvent → GameState → RunResult
  | [], s =>
    { final := s, exit := ExitKind.starved, consumed := 0, trace := [GameEvent.render s] }
  | input :: rest, s =>
    if input = InputEvent.Quit then
      { final := s, exit := ExitKind.quit, consumed := 1, trace := [GameEvent.render s] }
    else
      let s' := frameAdvance rng input s
      if frameLost s' then
        { final := s', exit := ExitKind.lost, consumed := 1,
          trace := [GameEvent.render s, GameEvent.render s', GameEvent.gameOverMsg s'.score] }
      else
        let res := runLoop rng rest (frameMine input s')
        { final := res.final, exit := res.exit, consumed := res.consumed + 1,
          trace := GameEvent.render s :: res.trace }

/-- C8: if the loop exits on a `Quit` intent, every emitted event is a
per-frame render (one per consumed input): no Game Over message and no extra
final render.  If it exits on collision or fuel-out, the trace is the
per-frame renders followed by exactly one extra render of the final state and
the Game Over message carrying the final score. -/
theorem quit_vs_loss (rng : Nat → Asteroid) (inputs : List InputEvent) (s : GameState) :
    ((runLoop rng inputs s).exit = ExitKind.quit →
      (∀ e ∈ (runLoop rng inputs s).trace, isRender e = true) ∧
      (runLoop rng inputs s).trace.length = (runLoop rng inputs s).consumed) ∧
    ((runLoop rng inputs s).exit = ExitKind.lost →
      ∃ pre,
        (runLoop rng inputs s).trace =
          pre ++ [GameEvent.render (runLoop rng inputs s).final,
            GameEvent.gameOverMsg (runLoop rng inputs s).final.score] ∧
        (∀ e ∈ pre, isRender e = true) ∧
        pre.length = (runLoop rng inputs s).consumed) := by
  induction inputs generalizing s with
  | nil => constructor <;> intro h <;> simp [runLoop] at h
  | cons input rest ih =>
      by_cases hq : input = InputEvent.Quit
      · subst hq
        constructor
        · intro _
          simp [runLoop, isRender]
        · intro h
          simp [runLoop] at h
      · by_cases hl : frameLost (frameAdvance rng input s) = true
        · constructor
          · intro h
            simp [runLoop, hq, hl] at h
          · intro _
            refine ⟨[GameEvent.render s], ?_, ?_, ?_⟩ <;>
              simp [runLoop, hq, hl, isRender]
        · have hstep :
              runLoop rng (input :: rest) s =
                { final := (runLoop rng rest (frameMine input (frameAdvance rng input s))).final,
                  exit := (runLoop rng rest (frameMine input (frameAdvance rng input s))).exit,
                  consumed :=
                    (runLoop rng rest (frameMine input (frameAdvance rng input s))).consumed + 1,
                  trace := GameEvent.render s ::
                    (runLoop rng rest (frameMine input (frameAdvance rng input s))).trace } := by
            simp [runLoop, hq, hl]
          rw [hstep]
          obtain ⟨ihq, ihl⟩ := ih (frameMine input (frameAdvance rng input s))
          constructor
          · intro h
            obtain ⟨hall, hlen⟩ := ihq h
            refine ⟨?_, ?_⟩
            · intro e he
              rcases List.mem_cons.mp he with rfl | he
              · rfl
              · exact hall e he
            · simp [hlen]
          · intro h
            obtain ⟨pre, htr, hall, hlen⟩ := ihl h
            refine ⟨GameEvent.render s :: pre, ?_, ?_, ?_⟩
            · simp [htr]
            · intro e he
              rcases List.mem_cons.mp he with rfl | he
              · rfl
              · exact hall e he
            · simp [hlen]

/-- Fixed asteroid oracle for witnesses. -/
def rngW : Nat → Asteroid := fun _ => ⟨0, 0⟩

/-- Start state for the C8 witness. -/
def startW8 : GameState :=
  { ship := Ship.new, asteroids := initialAsteroids, resources := initialResources,
    score := 0, tick := 0, spawn_rate := 50 }

/-- Witness for C8: a run that immediately quits emits exactly one render per
consumed input and nothing else. -/
theorem quit_vs_loss_witness :
    (runLoop rngW [InputEvent.Quit] startW8).trace.length =
      (runLoop rngW [InputEvent.Quit] startW8).consumed :=
  ((quit_vs_loss rngW [InputEvent.Quit] startW8).1 rfl).2

/-- Start state of the C7 scenario: the fresh ship at (10, 10) with fuel 100,
a single Gold node at (12, 10), no asteroids, score 0, tick 0, spawn rate 50. -/
def startC7 : GameState :=
  { ship := Ship.new, asteroids := [], resources := [⟨12, 10, Resource.Gold⟩],
    score := 0, tick := 0, spawn_rate := 50 }

/-- C7: running the three frames `[Right, Right, Mine]` from `startC7` (for any
asteroid oracle — no spawn tick is hit) leaves the ship at (12, 10) with
cargo[Gold] = 1 and fuel 98.5 (three frames of 0.5 decay, the `Mine` frame
included), the Gold node consumed, and the score increased from 0 by exactly
10. -/
theorem end_to_end_gold_mine (rng : Nat → Asteroid) :
    (runLoop rng [InputEvent.Right, InputEvent.Right, InputEvent.Mine] startC7).final.ship.x
        = 12 ∧
    (runLoop rng [InputEvent.Right, InputEvent.Right, InputEvent.Mine] startC7).final.ship.y
        = 10 ∧
    (runLoop rng [InputEvent.Right, InputEvent.Right, InputEvent.Mine]
        startC7).final.ship.cargo Resource.Gold = 1 ∧
    (runLoop rng [InputEvent.Right, InputEvent.Right, InputEvent.Mine] startC7).final.ship.fuel
        = 197 / 2 ∧
    (runLoop rng [InputEvent.Right, InputEvent.Right, InputEvent.Mine] startC7).final.score
        = startC7.score + 10 ∧
    (runLoop rng [InputEvent.Right, InputEvent.Right, InputEvent.Mine]
        startC7).final.resources = [] := by
  have hng : ¬ (Resource.Gold = Resource.Crystal) := by decide
  refine ⟨?_, ?_, ?_, ?_, ?_, ?_⟩ <;>
    simp +decide only [runLoop, frameAdvance, frameLost, frameMine, physics_system,
      mining_system, mineAt, cellMatch, creditCargo, collision_system, difficulty_step,
      startC7, Ship.new, max_def, min_def, if_neg hng, reduceIte] <;>
    norm_num

/-- Witness for C7 with the constant asteroid oracle. -/
theorem end_to_end_gold_mine_witness :
    (runLoop rngW [InputEvent.Right, InputEvent.Right, InputEvent.Mine] startC7).final.ship.x
      = 12 :=
  (end_to_end_gold_mine rngW).1

/-- The glyph of a resource kind in `render`: `*` for Iron, `♦` for Crystal,
`$` for Gold. -/
def resGlyph : Resource → Char
  | Resource.Iron => '*'
  | Resource.Crystal => '♦'
  | Resource.Gold => '$'

/-- The characters printed for column `x` of row `y` by `render`'s inner loop
body.  At the ship's cell it prints `>A<` and then two further spaces when
`x < 32` (the loop variable is NOT advanced — the `// Skip next 2 chars` comment
notwithstanding, the following columns are still rendered).  Otherwise the
first matching asteroid, else the first matching resource, else one blank. -/
def renderCell (ship : Ship) (asteroids : List Asteroid) (resources : List ResourceNode)
    (x y : Nat) : List Char :=
  if x = ship.x ∧ y = ship.y then
    ['>', 'A', '<'] ++ (if x < 32 then [' ', ' '] else [])
  else if asteroids.any fun a => a.x == x && a.y == y then
    ['O']
  else
    match resources.find? fun r => r.x == x && r.y == y with
    | some res => [resGlyph res.kind]
    | none => [' ']

/-- One interior row of the frame (between the `║` borders): the concatenated
cell output for `x` in `0..34`. -/
def renderRow (ship : Ship) (asteroids : List Asteroid) (resources : List ResourceNode)
    (y : Nat) : List Char :=
  ((List.range 34).map fun x => renderCell ship asteroids resources x y).flatten

/-- Ship for the C9 failing input: at (10, 10). -/
def shipC9 : Ship :=
  { fuel := 100, cargo := fun _ => 0, upgrades := [], x := 10, y := 10 }

/-- C9 (code bug): with an asteroid at (11, 10) — directly under the ship
glyph's visual footprint — row 10 still contains the asteroid glyph `O`:
the renderer prints `>A<` plus two pad spaces but never skips the next two
loop iterations, so the cells to the ship's right are rendered anyway and the
row is 38 characters wide instead of 34.  (The claim, following the source's
own `// Skip next 2 chars for ship width` comment, says those cells are
consumed and the hazard is not rendered.) -/
theorem ship_footprint_not_skipped :
    'O' ∈ renderRow shipC9 [⟨11, 10⟩] [] 10 ∧
    (renderRow shipC9 [⟨11, 10⟩] [] 10).length = 38 ∧
    renderRow shipC9 [⟨11, 10⟩] [] 10 =
      (List.replicate 10 ' ' ++ ['>', 'A', '<', ' ', ' '] ++ ['O'] ++
        List.replicate 22 ' ') := by
  refine ⟨?_, ?_, ?_⟩ <;> decide

theorem cell_eq_check_collision (sx sy ax ay : Nat) :
    (ax == sx && ay == sy) = check_collision ⟨sx, sy, 1, 1⟩ ⟨ax, ay, 1, 1⟩ := by
  rw [Bool.eq_iff_iff]
  simp only [check_collision, Bool.and_eq_true, beq_iff_eq, decide_eq_true_eq]
  omega

/-- C10: on unit rectangles (`w = h = 1`) the rectangle-overlap predicate
`check_collision` holds exactly when the two positions coincide; consequently
`collision_system`'s per-asteroid cell-equality test agrees with
`check_collision` applied to the unit rectangles at the ship's and the
asteroid's cells. -/
theorem unit_rect_collision_iff (a b : Rect) (haw : a.w = 1) (hah : a.h = 1)
    (hbw : b.w = 1) (hbh : b.h = 1) :
    (check_collision a b = true ↔ (a.x = b.x ∧ a.y = b.y)) ∧
    (∀ (ship : Ship) (asteroids : List Asteroid),
      collision_system ship asteroids =
        asteroids.any fun ast =>
          check_collision ⟨ship.x, ship.y, 1, 1⟩ ⟨ast.x, ast.y, 1, 1⟩) := by
  constructor
  · simp only [check_collision, haw, hah, hbw, hbh, Bool.and_eq_true, decide_eq_true_eq]
    omega
  · intro ship asteroids
    simp only [collision_system, cell_eq_check_collision]

/-- Witness for C10: two coinciding unit rectangles at (5, 5) do collide. -/
theorem unit_rect_collision_iff_witness :
    check_collision ⟨5, 5, 1, 1⟩ ⟨5, 5, 1, 1⟩ = true :=
  ((unit_rect_collision_iff ⟨5, 5, 1, 1⟩ ⟨5, 5, 1, 1⟩ rfl rfl rfl rfl).1).mpr ⟨rfl, rfl⟩

theorem runLoop_spawn_rate (rng : Nat → Asteroid) (inputs : List InputEvent) (s : GameState)
    (h : s.spawn_rate = spawnRateAt s.tick) :
    (runLoop rng inputs s).final.spawn_rate = spawnRateAt (runLoop rng inputs s).final.tick := by
  induction inputs generalizing s with
  | nil => simpa [runLoop] using h
  | cons input rest ih =>
      by_cases hq : input = InputEvent.Quit
      · simpa [runLoop, hq] using h
      · have hadv : (frameAdvance rng input s).spawn_rate =
            spawnRateAt (frameAdvance rng input s).tick := by
          simp [frameAdvance, spawnRateAt, h]
        by_cases hl : frameLost (frameAdvance rng input s) = true
        · simpa [runLoop, hq, hl] using hadv
        · have hmine : (frameMine input (frameAdvance rng input s)).spawn_rate =
              spawnRateAt (frameMine input (frameAdvance rng input s)).tick := by
            simpa [frameMine] using hadv
          simpa [runLoop, hq, hl] using ih (frameMine input (frameAdvance rng input s)) hmine

/-- C6: the spawn rate starts at 50, is 45 at tick 500 and 40 at tick 1000,
drops by exactly 5 at each positive multiple of 500 while above the floor and
is unchanged at every other tick, never goes below 10, is monotonically
non-increasing over the whole session, and stays at 10 forever once reached;
and `spawnRateAt` is exactly the spawn rate the game loop carries: any run
whose state is on the `spawnRateAt` curve (as `main`'s tick 0 / rate 50 start
is, by `spawnRateAt 0 = 50`) ends on it. -/
theorem spawn_rate_ramp :
    spawnRateAt 0 = 50 ∧ spawnRateAt 500 = 45 ∧ spawnRateAt 1000 = 40 ∧
    (∀ m n : Nat, m ≤ n → spawnRateAt n ≤ spawnRateAt m) ∧
    (∀ n : Nat, 10 ≤ spawnRateAt n) ∧
    (∀ n : Nat, spawnRateAt n = 10 → ∀ k : Nat, spawnRateAt (n + k) = 10) ∧
    (∀ n : Nat, (n + 1) % 500 = 0 → spawnRateAt n > 10 →
      spawnRateAt (n + 1) = spawnRateAt n - 5) ∧
    (∀ n : Nat, (n + 1) % 500 ≠ 0 → spawnRateAt (n + 1) = spawnRateAt n) ∧
    (∀ (rng : Nat → Asteroid) (inputs : List InputEvent) (s : GameState),
      s.spawn_rate = spawnRateAt s.tick →
      (runLoop rng inputs s).final.spawn_rate =
        spawnRateAt (runLoop rng inputs s).final.tick) := by
  refine ⟨rfl, ?_, ?_, ?_, ?_, ?_, ?_, ?_, runLoop_spawn_rate⟩
  · rw [spawnRateAt_closed]; decide
  · rw [spawnRateAt_closed]; decide
  · intro m n hmn
    induction n with
    | zero =>
        have : m = 0 := Nat.le_zero.mp hmn
        simp [this]
    | succ n ih =>
        rcases Nat.lt_or_ge m (n + 1) with h | h
        · exact le_trans (spawnRateAt_le_pred n) (ih (Nat.lt_succ_iff.mp h))
        · have : m = n + 1 := le_antisymm hmn h
          simp [this]
  · intro n
    rw [spawnRateAt_closed]
    omega
  · intro n h10 k
    induction k with
    | zero => exact h10
    | succ k ih =>
        have := spawnRateAt_closed (n + k)
        have := spawnRateAt_closed (n + (k + 1))
        have hfloor : spawnRateAt (n + k + 1) ≤ spawnRateAt (n + k) :=
          spawnRateAt_le_pred (n + k)
        have h10' : 10 ≤ spawnRateAt (n + k + 1) := by
          rw [spawnRateAt_closed]; omega
        have : n + (k + 1) = n + k + 1 := rfl
        omega
  · intro n hmod hbig
    rw [spawnRateAt, difficulty_step, if_pos ⟨hmod, hbig⟩]
  · intro n hmod
    rw [spawnRateAt, difficulty_step, if_neg fun hand => hmod hand.1]

/-- Witness for C6: monotonicity instantiated at 0 ≤ 500, the stay-at-floor
clause instantiated at tick 4000 (where the floor has been reached) for 500
more ticks, and the loop-link clause instantiated on a quitting run from the
tick-0 start. -/
theorem spawn_rate_ramp_witness :
    spawnRateAt 500 ≤ spawnRateAt 0 ∧ spawnRateAt (4000 + 500) = 10 ∧
    (runLoop rngW [InputEvent.Quit] startW8).final.spawn_rate =
      spawnRateAt (runLoop rngW [InputEvent.Quit] startW8).final.tick :=
  ⟨spawn_rate_ramp.2.2.2.1 0 500 (by omega),
    spawn_rate_ramp.2.2.2.2.2.1 4000 (by rw [spawnRateAt_closed 4000]; decide) 500,
    spawn_rate_ramp.2.2.2.2.2.2.2.2 rngW [InputEvent.Quit] startW8 rfl⟩
